import Mathlib

/-!
Verification development for the obozrenie game-server browser core:
the filter engine (`src/filters.rs`), the per-cycle dedup index and the
refresh event loop (`src/main.rs`), the discovery orchestrator built on
`futures01::future::join_all` plus `tokio`'s stream timeout, and the
HTTP master-list querier (`src/games/rigsofrods.rs`).

Modelling conventions:
- Rust strings are modelled as `List Char` (`RStr`); `str::starts_with`
  is `List.isPrefixOf` on the prefix.
- `std::time::Duration` is modelled as `Nat` (an abstract tick count);
  only comparisons and the zero value are used by the code.
- `u8`/`u64` player counts are modelled as `Nat`: the code only compares
  them, never performs arithmetic that could overflow.
- `HashSet` is modelled as a `List` without duplicates, with membership
  as the set operation actually used by the code.
-/

namespace Obozrenie

/-- Rust `String`/`&str`, modelled as its character sequence. -/
abbrev RStr := List Char

/-- A network address (`SocketAddr`): the dedup key. -/
structure SockAddr where
  ip : RStr
  port : Nat
deriving DecidableEq, Repr

/-- The closed `Game` enumeration from `src/games/mod.rs`. -/
inductive Game
  | OpenArena
  | OpenTTD
  | QuakeIII
  | RigsOfRods
  | Xonotic
deriving DecidableEq, Repr

/-- `rgs::models::Server` as consumed by this crate: the network address is
required, every other attribute is optional, plus protocol-specific rule
strings (only boolean-valued rules are produced by this crate). -/
structure Server where
  addr : SockAddr
  name : Option RStr := none
  ping : Option Nat := none
  mod_name : Option RStr := none
  game_type : Option RStr := none
  map : Option RStr := none
  num_clients : Option Nat := none
  max_clients : Option Nat := none
  secure : Option Bool := none
  need_pass : Option Bool := none
  rules : List (RStr × Bool) := []
deriving DecidableEq, Repr

/-- `Server::new(addr)`: a record with the given address and everything else
unset. -/
def Server.new (addr : SockAddr) : Server := { addr := addr }

/-- The `Filters` struct from `src/filters.rs`. -/
structure Filters where
  games : List Game
  game_mod : RStr
  game_type : RStr
  map : RStr
  max_ping : Nat
  anticheat : Option Bool
  not_full : Bool
  not_empty : Bool
  no_password : Bool
deriving DecidableEq, Repr

/-- `Filters::default()` (the `#[derive(Default)]` value): empty game set,
empty prefixes, zero max ping, no anticheat requirement, all toggles off. -/
def Filters.default : Filters :=
  { games := []
    game_mod := []
    game_type := []
    map := []
    max_ping := 0
    anticheat := none
    not_full := false
    not_empty := false
    no_password := false }

/-! Each `rej*` definition is the exact condition under which the
corresponding `if` block of `Filters::matches` executes `return false`. -/

/-- Block 1 of `Filters::matches`: reject when the game set is non-empty and
does not contain the server's game. -/
def rejGames (f : Filters) (game : Game) : Bool :=
  !f.games.isEmpty && !(decide (game ∈ f.games))

/-- Block 2: reject when the server exposes a mod name that does not start
with the configured prefix. -/
def rejMod (f : Filters) (srv : Server) : Bool :=
  match srv.mod_name with
  | some v => !(f.game_mod.isPrefixOf v)
  | none => false

/-- Block 3: reject when the server exposes a game type that does not start
with the configured prefix. -/
def rejGameType (f : Filters) (srv : Server) : Bool :=
  match srv.game_type with
  | some v => !(f.game_type.isPrefixOf v)
  | none => false

/-- Block 4: reject when the server exposes a map name that does not start
with the configured prefix. -/
def rejMap (f : Filters) (srv : Server) : Bool :=
  match srv.map with
  | some v => !(f.map.isPrefixOf v)
  | none => false

/-- Block 5: reject when `max_ping` is non-zero, the ping is measured, and it
exceeds the threshold. -/
def rejPing (f : Filters) (srv : Server) : Bool :=
  if f.max_ping > 0 then
    match srv.ping with
    | some value => decide (value > f.max_ping)
    | none => false
  else false

/-- Block 6: reject when an anticheat requirement is set, the secure flag is
reported, and they disagree. -/
def rejAnticheat (f : Filters) (srv : Server) : Bool :=
  match f.anticheat with
  | some filter =>
    match srv.secure with
    | some value => filter != value
    | none => false
  | none => false

/-- Block 7: reject when `not_full` is set, both player counts are known, and
the server is full. -/
def rejFull (f : Filters) (srv : Server) : Bool :=
  if f.not_full then
    match srv.num_clients, srv.max_clients with
    | some num_clients, some max_clients => decide (num_clients ≥ max_clients)
    | _, _ => false
  else false

/-- Block 8: reject when `not_empty` is set, the player count is known, and it
is zero. -/
def rejEmpty (f : Filters) (srv : Server) : Bool :=
  if f.not_empty then
    match srv.num_clients with
    | some num_clients => num_clients == 0
    | none => false
  else false

/-- Block 9: reject when `no_password` is set and the server is known to
require a password. -/
def rejPassword (f : Filters) (srv : Server) : Bool :=
  if f.no_password then
    match srv.need_pass with
    | some need_pass => need_pass
    | none => false
  else false

/-- `Filters::matches` from `src/filters.rs`: the sequential early-return
chain, one `if … return false` block per `rej*` condition, `true` at the
end. -/
def Filters.matches (f : Filters) (game : Game) (srv : Server) : Bool :=
  if rejGames f game then false
  else if rejMod f srv then false
  else if rejGameType f srv then false
  else if rejMap f srv then false
  else if rejPing f srv then false
  else if rejAnticheat f srv then false
  else if rejFull f srv then false
  else if rejEmpty f srv then false
  else if rejPassword f srv then false
  else true

/-! The spec's eight pass-clauses (spec §4.4); its clause 3 covers both the
game-type and the map prefix. -/

/-- Spec clause 1: pass when the game set is empty or contains the game. -/
def gamesClause (f : Filters) (game : Game) : Bool :=
  f.games.isEmpty || decide (game ∈ f.games)

/-- Spec clause 2: pass when the mod name is unknown or has the prefix. -/
def modClause (f : Filters) (srv : Server) : Bool :=
  match srv.mod_name with
  | some v => f.game_mod.isPrefixOf v
  | none => true

/-- Spec clause 3 (first half): game-type prefix. -/
def gameTypeClause (f : Filters) (srv : Server) : Bool :=
  match srv.game_type with
  | some v => f.game_type.isPrefixOf v
  | none => true

/-- Spec clause 3 (second half): map-name prefix. -/
def mapClause (f : Filters) (srv : Server) : Bool :=
  match srv.map with
  | some v => f.map.isPrefixOf v
  | none => true

/-- Spec clause 4: pass when the threshold is disabled (zero), the ping is
unknown, or the ping is within the threshold. -/
def pingClause (f : Filters) (srv : Server) : Bool :=
  if f.max_ping > 0 then
    match srv.ping with
    | some value => decide (value ≤ f.max_ping)
    | none => true
  else true

/-- Spec clause 5: pass unless a set anticheat requirement disagrees with a
reported secure flag. -/
def anticheatClause (f : Filters) (srv : Server) : Bool :=
  match f.anticheat with
  | some filter =>
    match srv.secure with
    | some value => filter == value
    | none => true
  | none => true

/-- Spec clause 6: pass unless `not_full` is set, both counts are known, and
current ≥ max. -/
def notFullClause (f : Filters) (srv : Server) : Bool :=
  if f.not_full then
    match srv.num_clients, srv.max_clients with
    | some num_clients, some max_clients => decide (num_clients < max_clients)
    | _, _ => true
  else true

/-- Spec clause 7: pass unless `not_empty` is set and the known player count
is zero. -/
def notEmptyClause (f : Filters) (srv : Server) : Bool :=
  if f.not_empty then
    match srv.num_clients with
    | some num_clients => !(num_clients == 0)
    | none => true
  else true

/-- Spec clause 8: pass unless `no_password` is set and the server is known
to need a password. -/
def noPasswordClause (f : Filters) (srv : Server) : Bool :=
  if f.no_password then
    match srv.need_pass with
    | some need_pass => !need_pass
    | none => true
  else true

/-- The spec's eight clauses, in the spec's order. -/
def clauseList (f : Filters) (game : Game) (srv : Server) : List Bool :=
  [ gamesClause f game
  , modClause f srv
  , gameTypeClause f srv && mapClause f srv
  , pingClause f srv
  , anticheatClause f srv
  , notFullClause f srv
  , notEmptyClause f srv
  , noPasswordClause f srv ]

theorem gamesClause_eq (f : Filters) (game : Game) :
    gamesClause f game = !rejGames f game := by
  unfold gamesClause rejGames
  cases f.games.isEmpty <;> cases decide (game ∈ f.games) <;> rfl

theorem modClause_eq (f : Filters) (srv : Server) :
    modClause f srv = !rejMod f srv := by
  unfold modClause rejMod
  cases srv.mod_name <;> simp

theorem gameTypeClause_eq (f : Filters) (srv : Server) :
    gameTypeClause f srv = !rejGameType f srv := by
  unfold gameTypeClause rejGameType
  cases srv.game_type <;> simp

theorem mapClause_eq (f : Filters) (srv : Server) :
    mapClause f srv = !rejMap f srv := by
  unfold mapClause rejMap
  cases srv.map <;> simp

theorem pingClause_eq (f : Filters) (srv : Server) :
    pingClause f srv = !rejPing f srv := by
  unfold pingClause rejPing
  by_cases h : f.max_ping > 0 <;> simp [h]
  cases srv.ping with
  | none => simp
  | some v => simp [decide_not.symm, Nat.not_lt]

theorem anticheatClause_eq (f : Filters) (srv : Server) :
    anticheatClause f srv = !rejAnticheat f srv := by
  unfold anticheatClause rejAnticheat
  cases f.anticheat <;> cases srv.secure <;> simp [bne]

theorem notFullClause_eq (f : Filters) (srv : Server) :
    notFullClause f srv = !rejFull f srv := by
  unfold notFullClause rejFull
  cases f.not_full <;> cases srv.num_clients <;> cases srv.max_clients <;>
    simp [decide_not.symm, Nat.not_le, Nat.not_lt]

theorem notEmptyClause_eq (f : Filters) (srv : Server) :
    notEmptyClause f srv = !rejEmpty f srv := by
  unfold notEmptyClause rejEmpty
  cases f.not_empty <;> cases srv.num_clients <;> simp

theorem noPasswordClause_eq (f : Filters) (srv : Server) :
    noPasswordClause f srv = !rejPassword f srv := by
  unfold noPasswordClause rejPassword
  cases f.no_password <;> cases srv.need_pass <;> simp

/-- The early-return chain evaluates to the conjunction of the negated
rejection conditions. -/
theorem matches_eq_not_rej (f : Filters) (game : Game) (srv : Server) :
    f.matches game srv =
      (!rejGames f game && (!rejMod f srv && (!rejGameType f srv &&
        (!rejMap f srv && (!rejPing f srv && (!rejAnticheat f srv &&
          (!rejFull f srv && (!rejEmpty f srv && !rejPassword f srv)))))))) := by
  unfold Filters.matches
  cases rejGames f game <;> cases rejMod f srv <;> cases rejGameType f srv <;>
    cases rejMap f srv <;> cases rejPing f srv <;> cases rejAnticheat f srv <;>
    cases rejFull f srv <;> cases rejEmpty f srv <;> cases rejPassword f srv <;>
    rfl

/-- `Filters::matches` is the conjunction of the spec's eight clauses. -/
theorem matches_eq_clauses (f : Filters) (game : Game) (srv : Server) :
    f.matches game srv = (clauseList f game srv).all id := by
  rw [matches_eq_not_rej]
  simp only [clauseList, List.all, id, gamesClause_eq, modClause_eq,
    gameTypeClause_eq, mapClause_eq, pingClause_eq, anticheatClause_eq,
    notFullClause_eq, notEmptyClause_eq, noPasswordClause_eq]
  cases rejGames f game <;> cases rejMod f srv <;> cases rejGameType f srv <;>
    cases rejMap f srv <;> cases rejPing f srv <;> cases rejAnticheat f srv <;>
    cases rejFull f srv <;> cases rejEmpty f srv <;> cases rejPassword f srv <;>
    rfl

/-! ## Event loop, dedup index and display store (`build_ui` in `src/main.rs`) -/

/-- The `AppEvent` enum: the only events the channel carries. -/
inductive AppEvent
  | addServer (game : Game) (srv : Server)
  | refreshComplete
deriving DecidableEq, Repr

/-- The driver-side mutable state touched by the event loop: the
`present_servers` dedup set (`HashSet<SocketAddr>`) and the displayed
`server_list` store rows. -/
structure UiState where
  present_servers : List SockAddr
  server_list : List (Game × Server)
deriving DecidableEq, Repr

/-- `HashSet::insert`: returns `true` (and records the element) exactly when
it was not yet present. -/
def hashSetInsert (s : List SockAddr) (a : SockAddr) : Bool × List SockAddr :=
  if a ∈ s then (false, s) else (true, a :: s)

/-- One iteration of the `gtk::timeout_add` event poller on a received event:
an `AddServer` row is appended only when `present_servers.insert(srv.addr)`
admits the address; `RefreshComplete` only re-enables the refresh control. -/
def handleEvent (st : UiState) (ev : AppEvent) : UiState :=
  match ev with
  | AppEvent.addServer game srv =>
    let r := hashSetInsert st.present_servers srv.addr
    if r.1 then
      { present_servers := r.2, server_list := st.server_list ++ [(game, srv)] }
    else
      { present_servers := r.2, server_list := st.server_list }
  | AppEvent.refreshComplete => st

/-- Draining a sequence of events through the poller. -/
def handleEvents (st : UiState) (evs : List AppEvent) : UiState :=
  evs.foldl handleEvent st

/-- The refresh-button click handler: `server_list.clear()` and
`present_servers.clear()` before the `StartRefresh` command is sent. -/
def startRefresh (st : UiState) : UiState :=
  { st with present_servers := [], server_list := [] }

/-- Display-store addresses are always covered by the dedup set, and are
pairwise distinct. -/
def UiInv (st : UiState) : Prop :=
  (∀ p ∈ st.server_list, p.2.addr ∈ st.present_servers) ∧
    (st.server_list.map (fun p => p.2.addr)).Nodup

theorem uiInv_handleEvent {st : UiState} (h : UiInv st) (ev : AppEvent) :
    UiInv (handleEvent st ev) := by
  obtain ⟨hsub, hnd⟩ := h
  cases ev with
  | refreshComplete => exact ⟨hsub, hnd⟩
  | addServer game srv =>
    by_cases hmem : srv.addr ∈ st.present_servers
    · have he : handleEvent st (AppEvent.addServer game srv) = st := by
        simp [handleEvent, hashSetInsert, hmem]
      rw [he]
      exact ⟨hsub, hnd⟩
    · have he : handleEvent st (AppEvent.addServer game srv) =
          { present_servers := srv.addr :: st.present_servers
            server_list := st.server_list ++ [(game, srv)] } := by
        simp [handleEvent, hashSetInsert, hmem]
      rw [he]
      constructor
      · intro p hp
        rcases List.mem_append.mp hp with hp | hp
        · exact List.mem_cons_of_mem _ (hsub p hp)
        · simp at hp
          subst hp
          exact List.mem_cons_self _ _
      · rw [List.map_append, List.nodup_append]
        refine ⟨hnd, List.nodup_singleton _, ?_⟩
        intro a ha hb
        simp at hb
        subst hb
        rcases List.mem_map.mp ha with ⟨p, hp, hpa⟩
        exact hmem (hpa ▸ hsub p hp)

theorem uiInv_handleEvents {st : UiState} (h : UiInv st) (evs : List AppEvent) :
    UiInv (handleEvents st evs) := by
  induction evs generalizing st with
  | nil => exact h
  | cons ev evs ih => exact ih (uiInv_handleEvent h ev)

/-! ## Discovery orchestrator (`AppCommand::StartRefresh` handler,
`src/main.rs`)

Model of the refresh task: `futures01::future::join_all` over the per-game
futures `querier.query().inspect(send).map_err(log).timeout(10s).for_each(…)`,
followed by `.then(|_| send(RefreshComplete))`.

A per-game stream is abstracted as the finite list of records it would
produce, together with how it would end (normal completion or a stream
error; a fired timeout reaches `join_all` the same way as a stream error).
`join_all` polls its unfinished futures and, per the `futures` 0.1
semantics, returns — dropping (cancelling) every remaining future — as soon
as one of them fails; the `.then` handler then pushes `RefreshComplete`
exactly once in every case.  Which stream yields its next record first is
scheduling nondeterminism; it is captured by an explicit schedule: at each
step the schedule entry selects (by rotation) the live stream that makes
progress, and when the finite schedule runs out the remaining streams are
drained in order. -/

/-- How a per-game stream terminates after its records. -/
inductive QOutcome
  | ok
  | err
deriving DecidableEq, Repr

/-- One per-game query stream: its game tag, the records it yields in source
order, and how it terminates. -/
structure GStream where
  game : Game
  items : List Server
  outcome : QOutcome
deriving DecidableEq, Repr

/-- Drain the remaining streams in order: each stream's records are emitted
and sent; a stream that ends in an error makes `join_all` fail fast —
the later streams are cancelled and the completion handler runs. -/
def drain : List GStream → List AppEvent
  | [] => [AppEvent.refreshComplete]
  | s :: rest =>
    s.items.map (fun srv => AppEvent.addServer s.game srv) ++
      (if s.outcome = QOutcome.err then [AppEvent.refreshComplete] else drain rest)

/-- Run the refresh under a schedule: each schedule entry rotates the live
streams to select which one is polled next; polling yields that stream's
next record, completes it, or — on a stream error — aborts `join_all`,
cancelling every other stream.  In every case the `.then` handler pushes
the single `RefreshComplete`. -/
def runSched : List Nat → List GStream → List AppEvent
  | [], streams => drain streams
  | _ :: _, [] => [AppEvent.refreshComplete]
  | k :: ks, s₀ :: rest₀ =>
    match (s₀ :: rest₀).rotate (k % (s₀ :: rest₀).length) with
    | [] => [AppEvent.refreshComplete]
    | s :: rest =>
      match s.items with
      | srv :: more =>
        AppEvent.addServer s.game srv ::
          runSched ks ({ s with items := more } :: rest)
      | [] =>
        match s.outcome with
        | QOutcome.err => [AppEvent.refreshComplete]
        | QOutcome.ok => runSched ks rest

theorem drain_shape (ss : List GStream) :
    ∃ evs, drain ss = evs ++ [AppEvent.refreshComplete] ∧
      ∀ e ∈ evs, ∃ g s, e = AppEvent.addServer g s := by
  induction ss with
  | nil => exact ⟨[], rfl, by simp⟩
  | cons s rest ih =>
    by_cases hout : s.outcome = QOutcome.err
    · refine ⟨s.items.map (fun srv => AppEvent.addServer s.game srv), ?_, ?_⟩
      · simp [drain, hout]
      · intro e he
        rcases List.mem_map.mp he with ⟨srv, _, rfl⟩
        exact ⟨s.game, srv, rfl⟩
    · obtain ⟨evs, he, hall⟩ := ih
      refine ⟨s.items.map (fun srv => AppEvent.addServer s.game srv) ++ evs, ?_, ?_⟩
      · simp [drain, hout, he]
      · intro e hmem
        rcases List.mem_append.mp hmem with hmem | hmem
        · rcases List.mem_map.mp hmem with ⟨srv, _, rfl⟩
          exact ⟨s.game, srv, rfl⟩
        · exact hall e hmem

theorem runSched_shape (sched : List Nat) :
    ∀ ss, ∃ evs, runSched sched ss = evs ++ [AppEvent.refreshComplete] ∧
      ∀ e ∈ evs, ∃ g s, e = AppEvent.addServer g s := by
  induction sched with
  | nil => intro ss; simpa [runSched] using drain_shape ss
  | cons k ks ih =>
    intro ss
    cases ss with
    | nil => exact ⟨[], rfl, by simp⟩
    | cons s₀ rest₀ =>
      rw [runSched]
      split
      · exact ⟨[], rfl, by simp⟩
      · rename_i s rest hrot
        split
        · rename_i srv more hitems
          obtain ⟨evs, he, hall⟩ := ih ({ s with items := more } :: rest)
          refine ⟨AppEvent.addServer s.game srv :: evs, ?_, ?_⟩
          · simp [he]
          · intro e hmem
            rcases List.mem_cons.mp hmem with rfl | hmem
            · exact ⟨s.game, srv, rfl⟩
            · exact hall e hmem
        · rename_i hitems
          split
          · exact ⟨[], rfl, by simp⟩
          · obtain ⟨evs, he, hall⟩ := ih rest
            exact ⟨evs, he, hall⟩

theorem drain_delivers (ss : List GStream)
    (hok : ∀ s ∈ ss, s.outcome = QOutcome.ok) :
    ∀ s ∈ ss, ∀ it ∈ s.items, AppEvent.addServer s.game it ∈ drain ss := by
  induction ss with
  | nil => intro s hs; exact absurd hs (by simp)
  | cons s₀ rest ih =>
    intro s hs it hit
    have h₀ : s₀.outcome = QOutcome.ok := hok s₀ (List.mem_cons_self _ _)
    have hdrain : drain (s₀ :: rest) =
        s₀.items.map (fun srv => AppEvent.addServer s₀.game srv) ++ drain rest := by
      simp [drain, h₀]
    rw [hdrain]
    rcases List.mem_cons.mp hs with rfl | hs
    · exact List.mem_append_left _ (List.mem_map.mpr ⟨it, hit, rfl⟩)
    · exact List.mem_append_right _
        (ih (fun x hx => hok x (List.mem_cons_of_mem _ hx)) s hs it hit)

theorem runSched_delivers (sched : List Nat) :
    ∀ ss, (∀ s ∈ ss, s.outcome = QOutcome.ok) →
      ∀ s ∈ ss, ∀ it ∈ s.items,
        AppEvent.addServer s.game it ∈ runSched sched ss := by
  induction sched with
  | nil =>
    intro ss hok s hs it hit
    simpa [runSched] using drain_delivers ss hok s hs it hit
  | cons k ks ih =>
    intro ss hok s hs it hit
    cases ss with
    | nil => exact absurd hs (by simp)
    | cons s₀ rest₀ =>
      rw [runSched]
      split
      · rename_i hrot
        rw [List.rotate_eq_nil_iff] at hrot
        exact absurd hrot (by simp)
      · rename_i sh rest hrot
        have hperm : ∀ x : GStream, x ∈ sh :: rest ↔ x ∈ s₀ :: rest₀ := by
          intro x
          rw [← hrot]
          exact (List.rotate_perm _ _).mem_iff
        have hok' : ∀ x ∈ sh :: rest, x.outcome = QOutcome.ok :=
          fun x hx => hok x ((hperm x).mp hx)
        have hs' : s ∈ sh :: rest := (hperm s).mpr hs
        split
        · rename_i srv more hitems
          have hoknew : ∀ x ∈ { sh with items := more } :: rest,
              x.outcome = QOutcome.ok := by
            intro x hx
            rcases List.mem_cons.mp hx with rfl | hx
            · exact hok' sh (List.mem_cons_self _ _)
            · exact hok' x (List.mem_cons_of_mem _ hx)
          rcases List.mem_cons.mp hs' with rfl | hs'
          · rw [hitems] at hit
            rcases List.mem_cons.mp hit with rfl | hit
            · exact List.mem_cons_self _ _
            · exact List.mem_cons_of_mem _
                (ih _ hoknew { s with items := more }
                  (List.mem_cons_self _ _) it hit)
          · exact List.mem_cons_of_mem _
              (ih _ hoknew s (List.mem_cons_of_mem _ hs') it hit)
        · rename_i hitems
          split
          · rename_i hout
            exact absurd (hok' sh (List.mem_cons_self _ _))
              (by rw [hout]; simp)
          · rcases List.mem_cons.mp hs' with rfl | hs'
            · rw [hitems] at hit
              exact absurd hit (by simp)
            · exact ih rest (fun x hx => hok' x (List.mem_cons_of_mem _ hx))
                s hs' it hit

/-! ## Stream timeout (`.timeout(Duration::from_secs(10))` in `src/main.rs`)

`tokio::util::StreamExt::timeout` wraps the per-game stream in
`tokio::timer::Timeout`.  For a wrapped *stream*, `Timeout::poll` first
polls the inner stream and, on every yielded item, **resets the delay to a
full timeout from now**; the timeout error fires only when the gap before
the next item exceeds the duration.  A stream is therefore modelled as the
list of its items paired with the delay between the previous yield (or the
start) and that item; the result is the delivered items plus whether the
timeout error fired (terminating the stream's future with an error). -/

/-- The 10-second timeout configured by the refresh task. -/
def refreshTimeout : Nat := 10

/-- `tokio::timer::Timeout` around a stream: deliver each item whose gap
since the previous yield is within `t` (the delay is reset after every
item); the first longer gap fires the timeout error and ends delivery. -/
def timeoutStream (t : Nat) : List (Nat × Server) → List Server × Bool
  | [] => ([], false)
  | (gap, srv) :: rest =>
    if gap ≤ t then
      let r := timeoutStream t rest
      (srv :: r.1, r.2)
    else ([], true)

/-- Modelled from the spec: "Each per-game consumption is wrapped with a
fixed overall timeout (10 seconds by default)" — deliver only the items
whose *cumulative* arrival time since the start of consumption is within
`t`; the first item past the cutoff fires the timeout. -/
def overallTimeoutAux (t : Nat) (elapsed : Nat) :
    List (Nat × Server) → List Server × Bool
  | [] => ([], false)
  | (gap, srv) :: rest =>
    if elapsed + gap ≤ t then
      let r := overallTimeoutAux t (elapsed + gap) rest
      (srv :: r.1, r.2)
    else ([], true)

/-- Modelled from the spec: the claimed fixed-overall-timeout consumption. -/
def overallTimeoutStream (t : Nat) (items : List (Nat × Server)) :
    List Server × Bool :=
  overallTimeoutAux t 0 items

/-- Characterization: the tokio stream timeout delivers exactly the longest
prefix of items whose inter-arrival gaps are within the duration, and the
timeout error fires exactly when some remaining gap exceeds it. -/
theorem timeoutStream_eq (t : Nat) (items : List (Nat × Server)) :
    timeoutStream t items =
      ((items.takeWhile (fun p => decide (p.1 ≤ t))).map Prod.snd,
        !(items.all (fun p => decide (p.1 ≤ t)))) := by
  induction items with
  | nil => rfl
  | cons p rest ih =>
    obtain ⟨gap, srv⟩ := p
    by_cases h : gap ≤ t <;>
      simp [timeoutStream, List.takeWhile_cons, h, ih]

/-! ## HTTP master-list querier (`Query::new` in `src/games/rigsofrods.rs`) -/

/-- One entry of the parsed JSON master list. -/
structure ServerEntry where
  has_password : Nat
  current_users : Nat
  max_clients : Nat
  verified : Nat
  is_official : Nat
  ip : RStr
  port : Nat
  name : RStr
  terrain_name : RStr
deriving DecidableEq, Repr

/-- The `Server` yielded for a resolved entry: `Server::new(addr)` with
ping, name, map, player counts and the two boolean rules filled in. -/
def entryServer (entry : ServerEntry) (addr : SockAddr) (ping : Option Nat) :
    Server :=
  { Server.new addr with
      ping := ping
      name := some entry.name
      map := some entry.terrain_name
      num_clients := some entry.current_users
      max_clients := some entry.max_clients
      rules := [("is_official".toList, entry.is_official == 1),
                ("verified".toList, entry.verified == 1)] }

/-- The entry loop of the generator in `Query::new`: resolve each entry
(`if let Ok(addr) = dns.resolve(..)` — a resolution failure silently skips
the entry), ping the resolved address (`pinger.ping(addr.ip())`, an error
is logged and degraded to a `None` ping via `unwrap_or_else`), and yield
one `Server` per successfully resolved entry.  `resolve` and `ping` stand
for the injected resolver and pinger capabilities, `ρ` and `π` for their
error types. -/
def processEntries {ρ π : Type} (resolve : ServerEntry → Except ρ SockAddr)
    (ping : RStr → Except π (Option Nat)) : List ServerEntry → List Server
  | [] => []
  | entry :: rest =>
    match resolve entry with
    | Except.ok addr =>
      entryServer entry addr
          (match ping addr.ip with
           | Except.ok d => d
           | Except.error _ => none) ::
        processEntries resolve ping rest
    | Except.error _ => processEntries resolve ping rest

/-! ## Shared small lemmas for the filter claims -/

theorem nil_isPrefixOf (l : RStr) : ([] : RStr).isPrefixOf l = true := by
  cases l <;> rfl

theorem rejPing_of_ping_none (f : Filters) (srv : Server)
    (h : srv.ping = none) : rejPing f srv = false := by
  unfold rejPing
  rw [h]
  by_cases hmp : f.max_ping > 0 <;> simp [hmp]

theorem rejPing_of_zero (f : Filters) (srv : Server)
    (h : f.max_ping = 0) : rejPing f srv = false := by
  unfold rejPing
  rw [h]
  simp

theorem perm_all_id {l₁ l₂ : List Bool} (h : List.Perm l₁ l₂) :
    l₁.all id = l₂.all id := by
  induction h with
  | nil => rfl
  | cons a _ ih => simp [List.all_cons, ih]
  | swap a b t => simp [List.all_cons, Bool.and_left_comm]
  | trans _ _ ih₁ ih₂ => exact ih₁.trans ih₂

/-! ## Claims about the filter engine -/

/-- C5: a `matches` clause whose server field is unknown is skipped and never
rejects: with `ping = none` the latency clause passes and the result of
`matches` is independent of the configured threshold, and the clauses for a
missing mod name, game type, map, secure flag, player counts and
need-password flag likewise pass. -/
theorem unknown_fields_never_reject (f : Filters) (game : Game) (srv : Server) :
    (srv.ping = none → ∀ t : Nat,
      Filters.matches { f with max_ping := t } game srv = f.matches game srv) ∧
    (srv.ping = none → pingClause f srv = true) ∧
    (srv.mod_name = none → modClause f srv = true) ∧
    (srv.game_type = none → gameTypeClause f srv = true) ∧
    (srv.map = none → mapClause f srv = true) ∧
    (srv.secure = none → anticheatClause f srv = true) ∧
    (srv.num_clients = none →
      notFullClause f srv = true ∧ notEmptyClause f srv = true) ∧
    (srv.max_clients = none → notFullClause f srv = true) ∧
    (srv.need_pass = none → noPasswordClause f srv = true) := by
  refine ⟨?_, ?_, ?_, ?_, ?_, ?_, ?_, ?_, ?_⟩
  · intro h t
    rw [matches_eq_not_rej, matches_eq_not_rej,
      rejPing_of_ping_none _ _ h, rejPing_of_ping_none _ _ h]
    rfl
  · intro h
    unfold pingClause
    rw [h]
    by_cases hmp : f.max_ping > 0 <;> simp [hmp]
  · intro h
    unfold modClause
    rw [h]
  · intro h
    unfold gameTypeClause
    rw [h]
  · intro h
    unfold mapClause
    rw [h]
  · intro h
    unfold anticheatClause
    rw [h]
    cases f.anticheat <;> rfl
  · intro h
    unfold notFullClause notEmptyClause
    rw [h]
    cases f.not_full <;> cases f.not_empty <;> simp
  · intro h
    unfold notFullClause
    rw [h]
    cases f.not_full <;> cases srv.num_clients <;> simp
  · intro h
    unfold noPasswordClause
    rw [h]
    cases f.no_password <;> simp

/-- C5 witness: instantiated on a server exposing none of the optional
fields, with a threshold of 100 against the default filters. -/
theorem unknown_fields_never_reject_witness :
    Filters.matches { Filters.default with max_ping := 100 } Game.QuakeIII
        (Server.new ⟨[], 0⟩) =
      Filters.default.matches Game.QuakeIII (Server.new ⟨[], 0⟩) ∧
    pingClause Filters.default (Server.new ⟨[], 0⟩) = true ∧
    notFullClause Filters.default (Server.new ⟨[], 0⟩) = true := by
  have h := unknown_fields_never_reject Filters.default Game.QuakeIII
    (Server.new ⟨[], 0⟩)
  exact ⟨h.1 rfl 100, h.2.1 rfl, (h.2.2.2.2.2.2.1 rfl).1⟩

/-- C6: a zero `max_ping` disables the latency clause: the clause passes and
`matches` does not distinguish any measured ping (however large) from an
unknown one. -/
theorem zero_max_ping_means_no_constraint (f : Filters) (game : Game)
    (srv : Server) (h : f.max_ping = 0) :
    pingClause f srv = true ∧
    ∀ p : Nat, f.matches game { srv with ping := some p } =
      f.matches game { srv with ping := none } := by
  constructor
  · unfold pingClause
    rw [h]
    simp
  · intro p
    rw [matches_eq_not_rej, matches_eq_not_rej,
      rejPing_of_zero _ _ h, rejPing_of_zero _ _ h]
    rfl

/-- C6 witness: default filters (zero threshold) on a ping of 99999. -/
theorem zero_max_ping_means_no_constraint_witness :
    pingClause Filters.default (Server.new ⟨[], 0⟩) = true ∧
    Filters.default.matches Game.OpenTTD
        { Server.new ⟨[], 0⟩ with ping := some 99999 } =
      Filters.default.matches Game.OpenTTD
        { Server.new ⟨[], 0⟩ with ping := none } := by
  have h := zero_max_ping_means_no_constraint Filters.default Game.OpenTTD
    (Server.new ⟨[], 0⟩) rfl
  exact ⟨h.1, h.2 99999⟩

/-- C7: the default `Filters` value accepts every (game, server) pair; an
empty game set never rejects on the game clause and an empty prefix never
rejects on the mod, game-type or map clause. -/
theorem default_filters_accept_all :
    (∀ (game : Game) (srv : Server),
      Filters.default.matches game srv = true) ∧
    (∀ (f : Filters) (game : Game), f.games = [] →
      gamesClause f game = true) ∧
    (∀ (f : Filters) (srv : Server), f.game_mod = [] →
      modClause f srv = true) ∧
    (∀ (f : Filters) (srv : Server), f.game_type = [] →
      gameTypeClause f srv = true) ∧
    (∀ (f : Filters) (srv : Server), f.map = [] →
      mapClause f srv = true) := by
  refine ⟨?_, ?_, ?_, ?_, ?_⟩
  · intro game srv
    rw [matches_eq_not_rej]
    cases hm : srv.mod_name <;> cases hg : srv.game_type <;>
      cases hmap : srv.map <;>
      simp [rejGames, rejMod, rejGameType, rejMap, rejPing, rejAnticheat,
        rejFull, rejEmpty, rejPassword, Filters.default, hm, hg, hmap,
        nil_isPrefixOf]
  · intro f game h
    unfold gamesClause
    simp [h]
  · intro f srv h
    unfold modClause
    cases srv.mod_name <;> simp [h, nil_isPrefixOf]
  · intro f srv h
    unfold gameTypeClause
    cases srv.game_type <;> simp [h, nil_isPrefixOf]
  · intro f srv h
    unfold mapClause
    cases srv.map <;> simp [h, nil_isPrefixOf]

/-- C7 witness: the default filters accept a fully populated server, and
the empty-prefix clauses pass on it. -/
theorem default_filters_accept_all_witness :
    Filters.default.matches Game.Xonotic
        { Server.new ⟨[], 0⟩ with
            ping := some 500
            mod_name := some ['m']
            game_type := some ['t']
            map := some ['d']
            num_clients := some 0
            max_clients := some 0
            secure := some false
            need_pass := some true } = true ∧
    gamesClause Filters.default Game.Xonotic = true ∧
    modClause Filters.default { Server.new ⟨[], 0⟩ with
      mod_name := some ['m'] } = true := by
  have h := default_filters_accept_all
  exact ⟨h.1 Game.Xonotic _, h.2.1 Filters.default Game.Xonotic rfl,
    h.2.2.1 Filters.default _ rfl⟩

/-- C8: with `not_full` set and both player counts known, and every other
clause passing, `matches` accepts exactly when current < max. -/
theorem not_full_rejects_full_servers (f : Filters) (game : Game)
    (srv : Server) (n m : Nat) (hnf : f.not_full = true)
    (hn : srv.num_clients = some n) (hm : srv.max_clients = some m)
    (hothers : gamesClause f game = true ∧ modClause f srv = true ∧
      gameTypeClause f srv = true ∧ mapClause f srv = true ∧
      pingClause f srv = true ∧ anticheatClause f srv = true ∧
      notEmptyClause f srv = true ∧ noPasswordClause f srv = true) :
    f.matches game srv = true ↔ n < m := by
  obtain ⟨h1, h2, h3, h4, h5, h6, h7, h8⟩ := hothers
  rw [matches_eq_clauses]
  have hfull : notFullClause f srv = decide (n < m) := by
    unfold notFullClause
    rw [hnf, hn, hm]
    simp
  simp [clauseList, List.all, h1, h2, h3, h4, h5, h6, h7, h8, hfull]

/-- C8 witness: the spec scenario — `not_full` with 8/8 rejected, 7/8
accepted. -/
theorem not_full_rejects_full_servers_witness :
    Filters.matches { Filters.default with not_full := true } Game.OpenTTD
        { Server.new ⟨[], 0⟩ with
            num_clients := some 7, max_clients := some 8 } = true ∧
    Filters.matches { Filters.default with not_full := true } Game.OpenTTD
        { Server.new ⟨[], 0⟩ with
            num_clients := some 8, max_clients := some 8 } = false := by
  constructor
  · exact (not_full_rejects_full_servers _ Game.OpenTTD _ 7 8 rfl rfl rfl
      (by refine ⟨?_, ?_, ?_, ?_, ?_, ?_, ?_, ?_⟩ <;> decide)).mpr (by decide)
  · have h := not_full_rejects_full_servers
      { Filters.default with not_full := true } Game.OpenTTD
      { Server.new ⟨[], 0⟩ with
          num_clients := some 8, max_clients := some 8 } 8 8 rfl rfl rfl
      (by refine ⟨?_, ?_, ?_, ?_, ?_, ?_, ?_, ?_⟩ <;> decide)
    cases hb : Filters.matches { Filters.default with not_full := true }
      Game.OpenTTD
      { Server.new ⟨[], 0⟩ with
          num_clients := some 8, max_clients := some 8 }
    · rfl
    · exact absurd (h.mp hb) (by decide)

/-- C9: `matches` is the conjunction of the spec's eight clause predicates,
and its value is invariant under any reordering of the clauses. -/
theorem matches_is_order_independent_conjunction (f : Filters) (game : Game)
    (srv : Server) :
    f.matches game srv = (clauseList f game srv).all id ∧
    ∀ l : List Bool, List.Perm l (clauseList f game srv) →
      l.all id = f.matches game srv := by
  refine ⟨matches_eq_clauses f game srv, ?_⟩
  intro l hperm
  rw [perm_all_id hperm, matches_eq_clauses]

/-- C9 witness: the clause list evaluated in reverse order on a concrete
pair gives the same verdict. -/
theorem matches_is_order_independent_conjunction_witness :
    Filters.default.matches Game.OpenArena (Server.new ⟨[], 0⟩) =
      (clauseList Filters.default Game.OpenArena (Server.new ⟨[], 0⟩)).all
        id ∧
    (clauseList Filters.default Game.OpenArena
        (Server.new ⟨[], 0⟩)).reverse.all id =
      Filters.default.matches Game.OpenArena (Server.new ⟨[], 0⟩) := by
  have h := matches_is_order_independent_conjunction Filters.default
    Game.OpenArena (Server.new ⟨[], 0⟩)
  exact ⟨h.1, h.2 _ (by decide)⟩

/-! ## Claims about dedup, orchestration, timeout and the HTTP querier -/

/-- C1: within one refresh cycle the dedup set admits each address exactly
once — `insert` answers `true` exactly on the first sighting — the
displayed rows never repeat an address, the refresh click clears both the
dedup set and the display store, and an address from an earlier cycle is
admitted again after the clear. -/
theorem dedup_admits_once_per_cycle :
    (∀ (s : List SockAddr) (a : SockAddr),
      (hashSetInsert s a).1 = decide (a ∉ s)) ∧
    (∀ (s : List SockAddr) (a : SockAddr),
      (hashSetInsert (hashSetInsert s a).2 a).1 = false) ∧
    (∀ st : UiState, (startRefresh st).present_servers = [] ∧
      (startRefresh st).server_list = []) ∧
    (∀ (st : UiState) (a : SockAddr),
      (hashSetInsert (startRefresh st).present_servers a).1 = true) ∧
    (∀ (st : UiState) (evs : List AppEvent),
      ((handleEvents (startRefresh st) evs).server_list.map
        (fun p => p.2.addr)).Nodup) := by
  refine ⟨?_, ?_, ?_, ?_, ?_⟩
  · intro s a
    unfold hashSetInsert
    by_cases h : a ∈ s <;> simp [h]
  · intro s a
    unfold hashSetInsert
    by_cases h : a ∈ s <;> simp [h]
  · intro st
    exact ⟨rfl, rfl⟩
  · intro st a
    simp [startRefresh, hashSetInsert]
  · intro st evs
    have hinv : UiInv (startRefresh st) :=
      ⟨fun p hp => absurd hp (by simp [startRefresh]), by simp [startRefresh]⟩
    exact (uiInv_handleEvents hinv evs).2

/-- C1 witness: the same address reported by two games in one cycle is
displayed once, and the display addresses stay distinct. -/
theorem dedup_admits_once_per_cycle_witness :
    ((handleEvents (startRefresh ⟨[⟨[], 9⟩], []⟩)
        [AppEvent.addServer Game.QuakeIII (Server.new ⟨[], 9⟩),
         AppEvent.addServer Game.OpenArena (Server.new ⟨[], 9⟩)]).server_list.map
      (fun p => p.2.addr)).Nodup ∧
    (hashSetInsert (startRefresh (⟨[⟨[], 9⟩], []⟩ : UiState)).present_servers
      ⟨[], 9⟩).1 = true := by
  have h := dedup_admits_once_per_cycle
  exact ⟨h.2.2.2.2 ⟨[⟨[], 9⟩], []⟩ _, h.2.2.2.1 ⟨[⟨[], 9⟩], []⟩ ⟨[], 9⟩⟩

/-- C2 counterexample: one querier erring before its first record, polled
first, makes `join_all` cancel the sibling: the sibling's sole record —
produced by its stream — is never delivered, although RefreshComplete
fires. -/
theorem error_aborts_siblings_counterexample :
    runSched [0]
        [⟨Game.OpenArena, [], QOutcome.err⟩,
         ⟨Game.OpenTTD, [Server.new ⟨[], 0⟩], QOutcome.ok⟩] =
      [AppEvent.refreshComplete] ∧
    AppEvent.addServer Game.OpenTTD (Server.new ⟨[], 0⟩) ∉
      runSched [0]
        [⟨Game.OpenArena, [], QOutcome.err⟩,
         ⟨Game.OpenTTD, [Server.new ⟨[], 0⟩], QOutcome.ok⟩] := by
  decide

/-- C2 amended: whatever errors occur, the refresh-complete signal still
fires; records delivered before an error remain on the channel, and when no
querier's stream errors every record of every querier is delivered — but an
error makes `join_all` cancel the siblings' undelivered remainder. -/
theorem error_isolation_amended (sched : List Nat) (ss : List GStream) :
    AppEvent.refreshComplete ∈ runSched sched ss ∧
    ((∀ s ∈ ss, s.outcome = QOutcome.ok) →
      ∀ s ∈ ss, ∀ it ∈ s.items,
        AppEvent.addServer s.game it ∈ runSched sched ss) := by
  constructor
  · obtain ⟨evs, he, -⟩ := runSched_shape sched ss
    rw [he]
    exact List.mem_append_right _ (List.mem_cons_self _ _)
  · exact runSched_delivers sched ss

/-- C2 amended witness: an error-free sibling delivers its record and the
completion signal is present. -/
theorem error_isolation_amended_witness :
    AppEvent.refreshComplete ∈
      runSched [] [⟨Game.OpenTTD, [Server.new ⟨[], 0⟩], QOutcome.ok⟩] ∧
    AppEvent.addServer Game.OpenTTD (Server.new ⟨[], 0⟩) ∈
      runSched [] [⟨Game.OpenTTD, [Server.new ⟨[], 0⟩], QOutcome.ok⟩] := by
  have h := error_isolation_amended []
    [⟨Game.OpenTTD, [Server.new ⟨[], 0⟩], QOutcome.ok⟩]
  exact ⟨h.1, h.2 (by decide)
    ⟨Game.OpenTTD, [Server.new ⟨[], 0⟩], QOutcome.ok⟩ (by decide)
    (Server.new ⟨[], 0⟩) (by decide)⟩

/-- C3: every refresh run pushes exactly one RefreshComplete event, as the
last event, after every record event — whichever streams completed, erred
or were cancelled. -/
theorem refresh_complete_exactly_once (sched : List Nat) (ss : List GStream) :
    ∃ evs, runSched sched ss = evs ++ [AppEvent.refreshComplete] ∧
      AppEvent.refreshComplete ∉ evs ∧
      ∀ e ∈ evs, ∃ g srv, e = AppEvent.addServer g srv := by
  obtain ⟨evs, he, hall⟩ := runSched_shape sched ss
  refine ⟨evs, he, ?_, hall⟩
  intro hmem
  obtain ⟨g, srv, heq⟩ := hall _ hmem
  exact AppEvent.noConfusion heq

/-- C3 witness: a run where the only stream times out into an error still
ends in exactly one RefreshComplete. -/
theorem refresh_complete_exactly_once_witness :
    ∃ evs,
      runSched [0, 1]
          [⟨Game.QuakeIII, [Server.new ⟨[], 0⟩], QOutcome.err⟩] =
        evs ++ [AppEvent.refreshComplete] ∧
      AppEvent.refreshComplete ∉ evs ∧
      ∀ e ∈ evs, ∃ g srv, e = AppEvent.addServer g srv :=
  refresh_complete_exactly_once [0, 1]
    [⟨Game.QuakeIII, [Server.new ⟨[], 0⟩], QOutcome.err⟩]

/-- C4 counterexample: with inter-arrival gaps 6 and 6, the code's timeout
delivers both records and never fires although the second record arrives
12 seconds — past the claimed fixed overall 10-second cutoff — into the
consumption, where the claimed semantics would have cancelled it. -/
theorem overall_timeout_counterexample :
    timeoutStream refreshTimeout
        [(6, Server.new ⟨[], 1⟩), (6, Server.new ⟨[], 2⟩)] =
      ([Server.new ⟨[], 1⟩, Server.new ⟨[], 2⟩], false) ∧
    overallTimeoutStream refreshTimeout
        [(6, Server.new ⟨[], 1⟩), (6, Server.new ⟨[], 2⟩)] =
      ([Server.new ⟨[], 1⟩], true) ∧
    6 + 6 > refreshTimeout := by
  decide

/-- C4 amended: the 10-second timeout bounds each inter-item gap (the delay
resets after every yielded item), not the whole consumption: the delivered
records are exactly the longest prefix with all gaps within the timeout —
records delivered before the fire remain, nothing follows the fire — and
the timeout error fires exactly when a longer gap is reached. -/
theorem per_item_timeout_semantics (items : List (Nat × Server)) :
    timeoutStream refreshTimeout items =
      ((items.takeWhile (fun p => decide (p.1 ≤ refreshTimeout))).map
          Prod.snd,
        !(items.all (fun p => decide (p.1 ≤ refreshTimeout)))) ∧
    List.IsPrefix (timeoutStream refreshTimeout items).1
      (items.map Prod.snd) := by
  refine ⟨timeoutStream_eq refreshTimeout items, ?_⟩
  rw [timeoutStream_eq]
  exact (List.takeWhile_prefix _).map _

/-- C4 amended witness: a stream with gaps 6 then 11 delivers only the
first record and fires the timeout. -/
theorem per_item_timeout_semantics_witness :
    timeoutStream refreshTimeout
        [(6, Server.new ⟨[], 1⟩), (11, Server.new ⟨[], 2⟩)] =
      (([(6, Server.new ⟨[], 1⟩),
          (11, Server.new ⟨[], 2⟩)].takeWhile
            (fun p => decide (p.1 ≤ refreshTimeout))).map Prod.snd,
        !([(6, Server.new ⟨[], 1⟩),
            (11, Server.new ⟨[], 2⟩)].all
              (fun p => decide (p.1 ≤ refreshTimeout)))) :=
  (per_item_timeout_semantics
    [(6, Server.new ⟨[], 1⟩), (11, Server.new ⟨[], 2⟩)]).1

/-- C10: in the HTTP-list querier's entry loop, a ping failure for a
resolved entry does not skip the entry — its Server is still yielded, with
`ping = none` — while a resolution failure silently skips exactly that
entry and the remaining entries are still processed. -/
theorem http_entry_error_isolation {ρ π : Type}
    (resolve : ServerEntry → Except ρ SockAddr)
    (ping : RStr → Except π (Option Nat))
    (entry : ServerEntry) (rest : List ServerEntry) :
    (∀ (addr : SockAddr) (e : π), resolve entry = Except.ok addr →
      ping addr.ip = Except.error e →
      processEntries resolve ping (entry :: rest) =
        entryServer entry addr none :: processEntries resolve ping rest) ∧
    (∀ e : ρ, resolve entry = Except.error e →
      processEntries resolve ping (entry :: rest) =
        processEntries resolve ping rest) := by
  constructor
  · intro addr e hres hping
    simp [processEntries, hres, hping]
  · intro e hres
    simp [processEntries, hres]

/-- C10 witness: a concrete entry whose ping errs is still yielded with an
unknown ping; one whose resolution errs is dropped. -/
theorem http_entry_error_isolation_witness :
    processEntries
        (fun _ => (Except.ok (⟨[], 7⟩ : SockAddr) : Except Nat SockAddr))
        (fun _ => (Except.error 0 : Except Nat (Option Nat)))
        [⟨1, 2, 3, 0, 1, [], 7, [], []⟩] =
      [entryServer ⟨1, 2, 3, 0, 1, [], 7, [], []⟩ ⟨[], 7⟩ none] ∧
    processEntries (fun _ => (Except.error 0 : Except Nat SockAddr))
        (fun _ => (Except.ok (some 1) : Except Nat (Option Nat)))
        [⟨1, 2, 3, 0, 1, [], 7, [], []⟩] =
      [] := by
  constructor
  · exact ((http_entry_error_isolation _ _
      (⟨1, 2, 3, 0, 1, [], 7, [], []⟩ : ServerEntry) []).1
      ⟨[], 7⟩ 0 rfl rfl).trans rfl
  · exact ((http_entry_error_isolation _ _
      (⟨1, 2, 3, 0, 1, [], 7, [], []⟩ : ServerEntry) []).2 0 rfl).trans rfl

end Obozrenie
